import Mathlib

/-!
Verification development for the startrek-rag-llm repository.

Text is modelled as `List Char`; positions are `Nat`. Python's float
threshold `chunk_size * 0.7` is modelled exactly as the rational 7/10
(the comparison `i > start + cs * 0.7` becomes `10*i > 10*start + 7*cs`);
for `cs = 10` the IEEE product `10 * 0.7` is exactly `7.0`, so the
concrete counterexamples below agree with the Python float comparison.
All parameter regimes used in theorems keep every cursor value
non-negative, where the `Nat` model agrees with Python's integers.
-/

namespace HtmlProc

/-- Python whitespace characters (ASCII range, as used by `str.strip`
and `\s`; the repository's content is ASCII-oriented). -/
def isPySpace (c : Char) : Bool :=
  c = ' ' || c = '\t' || c = '\n' || c = '\r' || c = '\x0b' || c = '\x0c'

/-- Python `text[a:b]` for `0 ≤ a ≤ b` (clamped at the ends). -/
def pySlice (t : List Char) (a b : Nat) : List Char :=
  (t.take b).drop a

/-- Python `str.strip()`: drop whitespace from both ends. -/
def pyStrip (t : List Char) : List Char :=
  ((t.dropWhile isPySpace).reverse.dropWhile isPySpace).reverse

/-- `sub` occurs in `t` at index `i`. -/
def occursAt (t sub : List Char) (i : Nat) : Bool :=
  (t.drop i).take sub.length == sub

/-- Scan downward from `n-1` for the greatest index `≥ a` where `sub`
occurs. Helper for `rfind`. -/
def rfindEnd (t sub : List Char) (a : Nat) : Nat → Option Nat
  | 0 => none
  | n + 1 => if a ≤ n ∧ occursAt t sub n then some n else rfindEnd t sub a n

/-- Python `t.rfind(sub, a, b)`: greatest `i` with `a ≤ i`,
`i + |sub| ≤ min b |t|` and an occurrence of `sub` at `i`; `none`
models the return value `-1`. -/
def rfind (t sub : List Char) (a b : Nat) : Option Nat :=
  if sub.length ≤ min b t.length then
    rfindEnd t sub a (min b t.length - sub.length + 1)
  else none

/-- The sentence-ending markers of `_create_chunks`, in source order. -/
def sentenceEndings : List (List Char) :=
  [['.', ' '], ['!', ' '], ['?', ' '], ['\n', '\n']]

/-- The marker `for`-loop of `_create_chunks`: for each marker in order,
take `rfind`'s rightmost occurrence in `[start, e)`; if it lies beyond
`start + cs * 0.7` the loop breaks with `end = occurrence + 1`,
otherwise the next marker is tried; if no marker qualifies, `e` stands. -/
def findCut (cs : Nat) (t : List Char) (start e : Nat) : List (List Char) → Nat
  | [] => e
  | m :: ms =>
    match rfind t m start e with
    | some i => if 10 * start + 7 * cs < 10 * i then i + 1 else findCut cs t start e ms
    | none => findCut cs t start e ms

/-- The `end` selected by one iteration of the chunking loop:
`end = start + cs`, adjusted by the marker search only when
`end < len(text)`. -/
def chunkEnd (cs : Nat) (t : List Char) (start : Nat) : Nat :=
  if start + cs < t.length then findCut cs t start (start + cs) sentenceEndings
  else start + cs

/-- One iteration of the `while` loop of `_create_chunks`: emit
`text[start:end].strip()` when non-empty, and advance the cursor to
`end - overlap`. -/
def chunkStep (cs ov : Nat) (t : List Char) (start : Nat) :
    Option (List Char) × Nat :=
  (if pyStrip (pySlice t start (chunkEnd cs t start)) = [] then none
   else some (pyStrip (pySlice t start (chunkEnd cs t start))),
   chunkEnd cs t start - ov)

/-- The `while start < len(text)` loop of `_create_chunks`, with explicit
fuel; `none` models non-termination within the fuel bound. -/
def chunkLoop (cs ov : Nat) (t : List Char) : Nat → Nat → List (List Char) →
    Option (List (List Char))
  | 0, _, _ => none
  | fuel + 1, start, acc =>
    if start < t.length then
      chunkLoop cs ov t fuel (chunkStep cs ov t start).2
        (acc ++ ((chunkStep cs ov t start).1).toList)
    else some acc

/-- `HTMLProcessor._create_chunks`: texts of length at most `cs` are
returned whole (a single-element list, untrimmed); longer texts go
through the chunking loop. Fuel `len + 1` suffices whenever the Python
loop terminates, since then the cursor strictly increases. -/
def createChunks (cs ov : Nat) (t : List Char) : Option (List (List Char)) :=
  if t.length ≤ cs then some [t] else chunkLoop cs ov t (t.length + 1) 0 []

/-! Characterization of the marker search, and the claim-level notion
(rightmost occurrence over all markers) for comparison. -/

/-- No occurrence of marker `m` inside `[start, e)` lies beyond
`start + cs * 0.7`. -/
def NoQualifyingOcc (cs : Nat) (t : List Char) (start e : Nat)
    (m : List Char) : Prop :=
  ∀ j, start ≤ j → j + m.length ≤ min e t.length → occursAt t m j = true →
    10 * j ≤ 10 * start + 7 * cs

/-- `i` is an occurrence of marker `m` inside `[start, e)` lying beyond
`start + cs * 0.7`. -/
def QualifyingOcc (cs : Nat) (t : List Char) (start e : Nat)
    (m : List Char) (i : Nat) : Prop :=
  start ≤ i ∧ i + m.length ≤ min e t.length ∧ occursAt t m i = true ∧
    10 * start + 7 * cs < 10 * i

/-- `i` bounds every occurrence of `m` inside `[start, e)` from above. -/
def RightmostOcc (t : List Char) (start e : Nat) (m : List Char) (i : Nat) :
    Prop :=
  ∀ j, start ≤ j → j + m.length ≤ min e t.length → occursAt t m j = true →
    j ≤ i


/-- Modelled from the claim's words (not from the source): the cut would
be the rightmost qualifying occurrence over all four markers together. -/
def findCutClaim (cs : Nat) (t : List Char) (start e : Nat) : Nat :=
  match sentenceEndings.filterMap (fun m =>
      match rfind t m start e with
      | some i => if 10 * start + 7 * cs < 10 * i then some i else none
      | none => none) with
  | [] => e
  | i :: is => (is.foldl max i) + 1

/-- Input exhibiting markers ". " at 80 and "! " at 90, both qualifying
in the window `[0, 100)` of a 102-character text. -/
def boundaryText : List Char :=
  List.replicate 80 'a' ++ ['.', ' '] ++ List.replicate 8 'b' ++
    ['!', ' '] ++ List.replicate 10 'c'

/-- Input on which the chunking loop of `_create_chunks` stalls:
`chunk_size = 10`, `overlap = 9`, text `"aaaaaaaa. ab"`. -/
def stallText : List Char := List.replicate 8 'a' ++ ['.', ' ', 'a', 'b']

/-! Model of `_process_html_content` / `_fallback_text_extraction`.
The external libraries (unstructured's `partition_html`, BeautifulSoup)
are modelled as oracles delivering either their extraction results or an
exception (`Except.error`); the processing pipeline around them is
translated from the source. -/

/-- What the BeautifulSoup pass observes: body text, optional title
text, heading texts (after script/style removal). A parse failure is
modelled at the `Except` level in `HtmlEnv`. -/
structure BsDoc where
  bodyText : List Char
  title : Option (List Char)
  headings : List (List Char)
deriving DecidableEq

/-- Oracle results for one HTML input: the unstructured element texts
(or an exception / unavailable library), the BeautifulSoup document (or
an exception), and the raw text the fallback's fresh parse extracts (or
an exception). -/
structure HtmlEnv where
  unstructured : Except Unit (List (List Char))
  bs : Except Unit BsDoc
  fallbackRaw : Except Unit (List Char)

/-- Collapse whitespace runs to a single space (`re.sub(r"\s+", " ")`);
the flag records whether the previous character was whitespace. -/
def collapseWsAux : Bool → List Char → List Char
  | _, [] => []
  | prev, c :: rest =>
    if isPySpace c then
      if prev then collapseWsAux true rest
      else ' ' :: collapseWsAux true rest
    else c :: collapseWsAux false rest

/-- Python `\w` (ASCII range). -/
def isWordChar (c : Char) : Bool := c.isAlphanum || c = '_'

/-- Characters kept by `clean_text`'s second substitution. -/
def keepChar (c : Char) : Bool :=
  isWordChar c || isPySpace c ||
    c = '.' || c = ',' || c = '!' || c = '?' || c = ';' || c = ':' ||
    c = '-' || c = '(' || c = ')' || c = '[' || c = ']' ||
    c = '\x7b' || c = '\x7d'

/-- `HTMLProcessor.clean_text`: collapse whitespace, drop disallowed
characters, strip the ends. -/
def cleanText (t : List Char) : List Char :=
  pyStrip ((collapseWsAux false t).filter keepChar)

/-- A chunk record as produced by the HTML pipeline (text plus the
metadata fields the source attaches). -/
structure HChunk where
  text : List Char
  source : List Char
  chunk_id : Nat
  content_type : String
  extraction_method : String
deriving DecidableEq

def titlePrefix : List Char := ['T', 'i', 't', 'l', 'e', ':', ' ']

def headingPrefix : List Char :=
  ['H', 'e', 'a', 'd', 'i', 'n', 'g', ':', ' ']

/-- Segments contributed by the unstructured strategy: element texts
that are truthy, whose cleaned form is truthy and longer than 50. An
exception (or unavailable library) contributes nothing. -/
def unstructuredSegments (r : Except Unit (List (List Char))) :
    List (List Char) :=
  match r with
  | .error _ => []
  | .ok elems =>
    ((elems.filter (fun e => !e.isEmpty)).map cleanText).filter
      (fun c => decide (c ≠ [] ∧ 50 < c.length))

/-- Segments contributed by the BeautifulSoup strategy: cleaned body
text if longer than 100, prefixed title if truthy, prefixed headings
whose cleaned text is longer than 10. An exception contributes
nothing. -/
def bsSegments (r : Except Unit BsDoc) : List (List Char) :=
  match r with
  | .error _ => []
  | .ok d =>
    (if d.bodyText ≠ [] ∧ cleanText d.bodyText ≠ [] ∧
        100 < (cleanText d.bodyText).length
     then [cleanText d.bodyText] else []) ++
    (match d.title with
     | some tt =>
       if tt ≠ [] ∧ cleanText tt ≠ [] then [titlePrefix ++ cleanText tt]
       else []
     | none => []) ++
    ((d.headings.map cleanText).filter
        (fun h => decide (h ≠ [] ∧ 10 < h.length))).map
      (fun h => headingPrefix ++ h)

/-- The `text_content` list accumulated by `_process_html_content`. -/
def textSegments (env : HtmlEnv) : List (List Char) :=
  unstructuredSegments env.unstructured ++ bsSegments env.bs

/-- `" ".join(text_content)`. -/
def joinSp (segs : List (List Char)) : List Char :=
  List.intercalate [' '] segs

/-- Attach chunk metadata, as both chunk-building loops do. -/
def wrapChunks (source : List Char) (ct em : String)
    (tcs : List (List Char)) : List HChunk :=
  tcs.enum.map (fun p => ⟨p.2, source, p.1, ct, em⟩)

/-- `HTMLProcessor._fallback_text_extraction`: re-extract raw text, clean
it, return `[]` when nothing remains or when the parse raises; chunk
otherwise. `none` models divergence of the chunker. -/
def fallbackTextExtraction (cs ov : Nat) (env : HtmlEnv)
    (source : List Char) : Option (List HChunk) :=
  match env.fallbackRaw with
  | .error _ => some []
  | .ok raw =>
    if cleanText raw = [] then some []
    else
      match createChunks cs ov (cleanText raw) with
      | some tcs => some (wrapChunks source "html_fallback" "fallback" tcs)
      | none => none

/-- `HTMLProcessor._process_html_content`: chunk the joined segments when
the strategies produced any, otherwise divert to the fallback extractor.
`none` models divergence of the chunker. -/
def processHtmlContent (cs ov : Nat) (env : HtmlEnv) (source : List Char) :
    Option (List HChunk) :=
  if textSegments env ≠ [] then
    match createChunks cs ov (joinSp (textSegments env)) with
    | some tcs => some (wrapChunks source "html" "combined" tcs)
    | none => none
  else fallbackTextExtraction cs ov env source

/-- Oracle results for an HTML input with no extractable visible text,
e.g. `"<script>var x = 1;</script>"`: no unstructured elements, empty
body/no title/no headings, and an empty fallback raw text. -/
def scriptOnlyEnv : HtmlEnv := ⟨.ok [], .ok ⟨[], none, []⟩, .ok []⟩

/-- Oracle results where every strategy raises. -/
def allFailEnv : HtmlEnv := ⟨.error (), .error (), .error ()⟩

end HtmlProc

namespace RagService

/-! Model of `RAGService.query` (services/rag_service.py). The vector
store and the LLM chain are external collaborators, modelled as oracle
inputs; `Except.error` models a raised exception (caught by the method's
outer handler, which returns `None`). -/

/-- The `results` dictionary of `collection.query`: only the
`"documents"` entry is consulted. `none` models a missing `"documents"`
key or a non-list value. -/
structure QueryResults where
  documents : Option (List (List String))
deriving DecidableEq

/-- The literal conversational fallback string. -/
def fallbackAnswer : String :=
  "I don't have enough information to answer that question."

/-- The documents retrieved for the question: `documents[0]` when
present, else nothing. -/
def retrievedDocs (r : Option QueryResults) : List String :=
  match r with
  | some res =>
    match res.documents with
    | some (d :: _) => d
    | _ => []
  | none => []

/-- `RAGService.query`. Parameters: the question; whether
`self.collection` / `self.llm` are initialized; the retrieval call's
outcome (`.error` = it raised; `.ok none` = falsy results dict or one
without documents); the LLM chain's outcome. Returns the value returned
by the method paired with whether the LLM chain was invoked. -/
def query (question : String) (collectionOk : Bool)
    (retrieval : Except Unit (Option QueryResults)) (llmOk : Bool)
    (llm : Except Unit String) : Option String × Bool :=
  if question = "" then (none, false)
  else if !collectionOk then (none, false)
  else
    match retrieval with
    | .error _ => (none, false)
    | .ok none => (some fallbackAnswer, false)
    | .ok (some res) =>
      match res.documents with
      | none => (some fallbackAnswer, false)
      | some [] => (some fallbackAnswer, false)
      | some (docs :: _) =>
        if docs = [] then (some fallbackAnswer, false)
        else if String.intercalate "\n" docs = "" then
          (some fallbackAnswer, false)
        else if !llmOk then (none, false)
        else
          match llm with
          | .error _ => (none, false)
          | .ok resp => (some resp, true)

end RagService

namespace Api

/-! Model of the `/api/query` endpoint (routes/api.py). The RAG service
is an oracle mapping the query text and `num_results` to its returned
`Optional[str]` (or an exception). -/

/-- The parsed JSON request body; `query = none` models a body without
the `"query"` key, and the `none` case of the endpoint's argument models
a missing/falsy body. -/
structure QueryRequest where
  query : Option String
  num_results : Nat
deriving DecidableEq

/-- A JSON response body: `{"message": ...}` or `{"error": ...}`. -/
inductive ApiBody
  | message (s : String)
  | error (s : String)
deriving DecidableEq

/-- The `/api/query` handler: returns the HTTP status code and body.
`service` is `rag_service.query`; its `.error` outcome models a raised
exception (mapped to 500 by the handler's `except`). -/
def queryRoute (data : Option QueryRequest)
    (service : String → Nat → Except String (Option String)) :
    Nat × ApiBody :=
  match data with
  | none => (400, .error "No query provided")
  | some d =>
    match d.query with
    | none => (400, .error "No query provided")
    | some q =>
      match service q d.num_results with
      | .error e => (500, .error ("Query error: " ++ e))
      | .ok (some resp) =>
        if resp = "" then (400, .error "No response generated")
        else (200, .message resp)
      | .ok none => (400, .error "No response generated")

/-- A service oracle that answers with the empty string. -/
def svcEmpty : String → Nat → Except String (Option String) :=
  fun _ _ => .ok (some "")

end Api

namespace EnhancedProc

/-! Model of `EnhancedContentProcessor` (enhanced_processor.py): the
per-run statistics, the per-chunk embed/persist loop shared by
`process_text_file` / `process_html_file`, and `process_folder`. The
external embedding endpoint and ChromaDB endpoint are modelled as a
per-chunk outcome oracle; file reads and HTML extraction are modelled
as part of the file inputs. -/

/-- The `self.stats` counters (the `file_types` sub-dictionary is
flattened into the `ft_` fields). -/
structure Stats where
  total_files_processed : Nat
  total_urls_processed : Nat
  total_chunks_processed : Nat
  total_text_length : Nat
  errors : Nat
  ft_text : Nat
  ft_html : Nat
  ft_urls : Nat
deriving DecidableEq

def initStats : Stats := ⟨0, 0, 0, 0, 0, 0, 0, 0⟩

/-- Outcome of embedding then persisting one chunk:
`ok` — both succeed (`add_to_chroma` returns True);
`addFail` — embedding succeeds, the add call raises (caught inside
`add_to_chroma`, which counts one error and returns False);
`embedFail` — the embed call raises before the text length is counted
(`get_embedding` counts one error and re-raises; the chunk loop's
handler counts another);
`embedNotList` — the embed response parses but is not a list, raised
after the text length was already counted (two error increments as
well). -/
inductive ChunkOutcome
  | ok
  | addFail
  | embedFail
  | embedNotList
deriving DecidableEq

/-- A text file as `process_text_file` observes it: whether the read
succeeds, its content, and the outcome of each chunk's external calls. -/
structure TextFileInput where
  readOk : Bool
  content : List Char
  oracle : Nat → ChunkOutcome

/-- An HTML file as `process_html_file` observes it: the extracted chunk
texts (`none` models `extract_text_from_html_file` raising), and the
outcome of each chunk's external calls. -/
structure HtmlFileInput where
  extracted : Option (List (List Char))
  oracle : Nat → ChunkOutcome

/-- Python `content.split("\n\n")` (leftmost, non-overlapping). -/
def splitNNAux : List Char → List Char → List (List Char)
  | [], cur => [cur.reverse]
  | [c], cur => [(c :: cur).reverse]
  | c :: c2 :: rest, cur =>
    if c = '\n' ∧ c2 = '\n' then cur.reverse :: splitNNAux rest []
    else splitNNAux (c2 :: rest) (c :: cur)

def splitNN (t : List Char) : List (List Char) := splitNNAux t []

/-- `valid_chunks`: the paragraph pieces whose strip is truthy. -/
def validChunks (content : List Char) : List (List Char) :=
  (splitNN content).filter (fun c => !(HtmlProc.pyStrip c).isEmpty)

/-- The per-chunk loop shared by `process_text_file` and
`process_html_file`: each chunk is embedded and persisted; a failure
updates the error counter and the loop continues with the next chunk.
Arguments: oracle, remaining chunks, chunk index, `processed_count`,
stats. -/
def processChunks (o : Nat → ChunkOutcome) :
    List (List Char) → Nat → Nat → Stats → Nat × Stats
  | [], _, cnt, s => (cnt, s)
  | c :: rest, i, cnt, s =>
    match o i with
    | .embedFail =>
      processChunks o rest (i + 1) cnt { s with errors := s.errors + 2 }
    | .embedNotList =>
      processChunks o rest (i + 1) cnt
        { s with total_text_length := s.total_text_length + c.length,
                 errors := s.errors + 2 }
    | .addFail =>
      processChunks o rest (i + 1) cnt
        { s with total_text_length := s.total_text_length + c.length,
                 errors := s.errors + 1 }
    | .ok =>
      processChunks o rest (i + 1) (cnt + 1)
        { s with total_text_length := s.total_text_length + c.length,
                 total_files_processed := s.total_files_processed + 1,
                 total_chunks_processed := s.total_chunks_processed + 1 }

/-- `process_text_file`: a failed read counts one error and re-raises
(`none`); otherwise the paragraph chunks are processed and
`processed_count` returned. -/
def processTextFile (f : TextFileInput) (s : Stats) : Option Nat × Stats :=
  if f.readOk then
    (some (processChunks f.oracle (validChunks f.content) 0 0 s).1,
      (processChunks f.oracle (validChunks f.content) 0 0 s).2)
  else (none, { s with errors := s.errors + 1 })

/-- `process_html_file`: a raising extraction counts one error and
re-raises; otherwise the extracted chunks are processed. -/
def processHtmlFile (f : HtmlFileInput) (s : Stats) : Option Nat × Stats :=
  match f.extracted with
  | some chunks =>
    (some (processChunks f.oracle chunks 0 0 s).1,
      (processChunks f.oracle chunks 0 0 s).2)
  | none => (none, { s with errors := s.errors + 1 })

/-- One step of `process_folder`'s text-file loop: on success bump the
`text` file-type counter and the files counter; on exception count one
more error and continue. -/
def foldTextFile (s : Stats) (f : TextFileInput) : Stats :=
  match processTextFile f s with
  | (some _, s1) =>
    { s1 with ft_text := s1.ft_text + 1,
              total_files_processed := s1.total_files_processed + 1 }
  | (none, s1) => { s1 with errors := s1.errors + 1 }

/-- One step of `process_folder`'s HTML-file loop. -/
def foldHtmlFile (s : Stats) (f : HtmlFileInput) : Stats :=
  match processHtmlFile f s with
  | (some _, s1) =>
    { s1 with ft_html := s1.ft_html + 1,
              total_files_processed := s1.total_files_processed + 1 }
  | (none, s1) => { s1 with errors := s1.errors + 1 }

/-- `process_folder`: raises (`none`) only when the path does not exist;
otherwise resets the statistics, processes the text files then the HTML
files, and returns the statistics. -/
def processFolder (pathExists : Bool) (tfs : List TextFileInput)
    (hfs : List HtmlFileInput) : Option Stats :=
  if pathExists then
    some (hfs.foldl foldHtmlFile (tfs.foldl foldTextFile initStats))
  else none

/-- Error increments contributed by one chunk outcome (see
`ChunkOutcome`). -/
def outcomeErrors : ChunkOutcome → Nat
  | .ok => 0
  | .addFail => 1
  | .embedFail => 2
  | .embedNotList => 2

def outcomeOk : ChunkOutcome → Nat
  | .ok => 1
  | _ => 0

/-- The outcomes the oracle delivers for chunk indices `i, …, i+n-1`. -/
def outcomesFrom (o : Nat → ChunkOutcome) (i n : Nat) : List ChunkOutcome :=
  (List.range n).map (fun k => o (i + k))

/-- Error increments a text file contributes to a run: 2 for an
unreadable file (one in `process_text_file`, one in `process_folder`),
otherwise the per-chunk weights. -/
def textFileErrors (f : TextFileInput) : Nat :=
  if f.readOk then
    ((outcomesFrom f.oracle 0 (validChunks f.content).length).map
      outcomeErrors).sum
  else 2

def textFileOkChunks (f : TextFileInput) : Nat :=
  if f.readOk then
    ((outcomesFrom f.oracle 0 (validChunks f.content).length).map
      outcomeOk).sum
  else 0

def htmlFileErrors (f : HtmlFileInput) : Nat :=
  match f.extracted with
  | some chunks =>
    ((outcomesFrom f.oracle 0 chunks.length).map outcomeErrors).sum
  | none => 2

def htmlFileOkChunks (f : HtmlFileInput) : Nat :=
  match f.extracted with
  | some chunks => ((outcomesFrom f.oracle 0 chunks.length).map outcomeOk).sum
  | none => 0

/-- A folder with one readable text file `"hello"` (one paragraph chunk)
whose embed and persist calls both succeed. -/
def fileC8 : TextFileInput :=
  ⟨true, ['h', 'e', 'l', 'l', 'o'], fun _ => ChunkOutcome.ok⟩

end EnhancedProc

namespace HtmlProc

/-! Basic facts about `pyStrip`, `pySlice`, `rfind`. -/

lemma dropWhile_dropWhile_eq (p : Char → Bool) (l : List Char) :
    (l.dropWhile p).dropWhile p = l.dropWhile p := by
  induction l with
  | nil => rfl
  | cons c rest ih =>
    by_cases h : p c
    · simp [List.dropWhile_cons, h, ih]
    · simp [List.dropWhile_cons, h]

lemma dropWhile_eq_self_of_prefix (p : Char → Bool) {l l' : List Char}
    (hl : l.dropWhile p = l) (hp : l' <+: l) : l'.dropWhile p = l' := by
  cases l' with
  | nil => rfl
  | cons c rest =>
    obtain ⟨s, hs⟩ := hp
    have hpc : ¬ p c = true := by
      intro hc
      rw [← hs, List.cons_append, List.dropWhile_cons_of_pos hc] at hl
      have hle := (List.dropWhile_suffix (l := rest ++ s) p).sublist.length_le
      have hlen := congrArg List.length hl
      simp only [List.length_cons] at hlen
      omega
    rw [List.dropWhile_cons_of_neg hpc]

lemma pyStrip_isPrefixOf (t : List Char) : pyStrip t <+: t.dropWhile isPySpace := by
  unfold pyStrip
  refine ⟨((t.dropWhile isPySpace).reverse.takeWhile isPySpace).reverse, ?_⟩
  rw [← List.reverse_append, List.takeWhile_append_dropWhile, List.reverse_reverse]

lemma pyStrip_idem (t : List Char) : pyStrip (pyStrip t) = pyStrip t := by
  have hfront : (pyStrip t).dropWhile isPySpace = pyStrip t := by
    have h1 : (t.dropWhile isPySpace).dropWhile isPySpace = t.dropWhile isPySpace :=
      dropWhile_dropWhile_eq _ _
    exact dropWhile_eq_self_of_prefix _ h1 (pyStrip_isPrefixOf t)
  have hback : (pyStrip t).reverse.dropWhile isPySpace = (pyStrip t).reverse := by
    unfold pyStrip
    rw [List.reverse_reverse]
    exact dropWhile_dropWhile_eq _ _
  have hdef : ∀ x : List Char,
      pyStrip x = ((x.dropWhile isPySpace).reverse.dropWhile isPySpace).reverse :=
    fun _ => rfl
  rw [hdef (pyStrip t), hfront, hback, List.reverse_reverse]

lemma pyStrip_length_le (t : List Char) : (pyStrip t).length ≤ t.length := by
  unfold pyStrip
  have h1 := (List.dropWhile_suffix (l := t) isPySpace).sublist.length_le
  have h2 := (List.dropWhile_suffix (l := (t.dropWhile isPySpace).reverse)
    isPySpace).sublist.length_le
  simp only [List.length_reverse] at h2 ⊢
  omega

lemma pySlice_length_le (t : List Char) (a b : Nat) :
    (pySlice t a b).length ≤ b - a := by
  unfold pySlice
  simp
  omega

/-! Correctness of `rfind`: the returned index is a valid occurrence and
is the greatest one inside the search window. -/

lemma rfindEnd_some {t sub : List Char} {a : Nat} :
    ∀ {n i : Nat}, rfindEnd t sub a n = some i →
      a ≤ i ∧ i < n ∧ occursAt t sub i = true := by
  intro n
  induction n with
  | zero => intro i h; simp [rfindEnd] at h
  | succ n ih =>
    intro i h
    rw [rfindEnd] at h
    split at h
    · next hc =>
      cases h
      exact ⟨hc.1, Nat.lt_succ_self n, hc.2⟩
    · obtain ⟨h1, h2, h3⟩ := ih h
      exact ⟨h1, Nat.lt_succ_of_lt h2, h3⟩

lemma rfindEnd_max {t sub : List Char} {a : Nat} :
    ∀ {n i : Nat}, rfindEnd t sub a n = some i →
      ∀ j, a ≤ j → j < n → occursAt t sub j = true → j ≤ i := by
  intro n
  induction n with
  | zero => intro i h; simp [rfindEnd] at h
  | succ n ih =>
    intro i h j hja hjn hocc
    rw [rfindEnd] at h
    split at h
    · cases h
      omega
    · next hc =>
      rcases Nat.lt_succ_iff_lt_or_eq.mp hjn with hlt | hEq
      · exact ih h j hja hlt hocc
      · subst hEq
        exact absurd ⟨hja, hocc⟩ hc

lemma rfindEnd_none {t sub : List Char} {a : Nat} :
    ∀ {n : Nat}, rfindEnd t sub a n = none →
      ∀ j, a ≤ j → j < n → occursAt t sub j = true → False := by
  intro n
  induction n with
  | zero => intro _ j _ hj _; omega
  | succ n ih =>
    intro h j hja hjn hocc
    rw [rfindEnd] at h
    split at h
    · cases h
    · next hc =>
      rcases Nat.lt_succ_iff_lt_or_eq.mp hjn with hlt | hEq
      · exact ih h j hja hlt hocc
      · subst hEq
        exact hc ⟨hja, hocc⟩

lemma rfind_some {t sub : List Char} {a b i : Nat}
    (h : rfind t sub a b = some i) :
    a ≤ i ∧ i + sub.length ≤ min b t.length ∧ occursAt t sub i = true := by
  unfold rfind at h
  split at h
  · next hle =>
    obtain ⟨h1, h2, h3⟩ := rfindEnd_some h
    exact ⟨h1, by omega, h3⟩
  · cases h

lemma rfind_max {t sub : List Char} {a b i : Nat}
    (h : rfind t sub a b = some i) :
    ∀ j, a ≤ j → j + sub.length ≤ min b t.length →
      occursAt t sub j = true → j ≤ i := by
  intro j hja hjb hocc
  unfold rfind at h
  split at h
  · exact rfindEnd_max h j hja (by omega) hocc
  · cases h

lemma rfind_none {t sub : List Char} {a b : Nat}
    (h : rfind t sub a b = none) :
    ∀ j, a ≤ j → j + sub.length ≤ min b t.length →
      occursAt t sub j = true → False := by
  intro j hja hjb hocc
  unfold rfind at h
  split at h
  · exact rfindEnd_none h j hja (by omega) hocc
  · next hgt => omega

/-! The `end` chosen by one loop iteration: bounds and case analysis. -/

lemma findCut_cases (cs : Nat) (t : List Char) (start e : Nat) :
    ∀ ms : List (List Char), (∀ m ∈ ms, m.length = 2) →
      findCut cs t start e ms = e ∨
      ∃ i, 10 * start + 7 * cs < 10 * i ∧ start ≤ i ∧ i + 2 ≤ min e t.length ∧
        findCut cs t start e ms = i + 1 := by
  intro ms
  induction ms with
  | nil => intro _; left; rfl
  | cons m ms ih =>
    intro hlen
    have hm : m.length = 2 := hlen m (by simp)
    have hms : ∀ m' ∈ ms, m'.length = 2 := fun m' h' => hlen m' (by simp [h'])
    cases hr : rfind t m start e with
    | none => simpa only [findCut, hr] using ih hms
    | some i =>
      obtain ⟨h1, h2, _⟩ := rfind_some hr
      rw [hm] at h2
      by_cases hq : 10 * start + 7 * cs < 10 * i
      · right
        refine ⟨i, hq, h1, h2, ?_⟩
        simp only [findCut, hr, if_pos hq]
      · simpa only [findCut, hr, if_neg hq] using ih hms

lemma chunkEnd_cases (cs : Nat) (t : List Char) (start : Nat) :
    chunkEnd cs t start = start + cs ∨
    ∃ i, 10 * start + 7 * cs < 10 * i ∧ start ≤ i ∧
      i + 2 ≤ min (start + cs) t.length ∧ chunkEnd cs t start = i + 1 := by
  unfold chunkEnd
  split
  · have hall : ∀ m ∈ sentenceEndings, m.length = 2 := by decide
    exact findCut_cases cs t start (start + cs) sentenceEndings hall
  · left; rfl

lemma chunkEnd_le (cs : Nat) (t : List Char) (start : Nat) :
    chunkEnd cs t start ≤ start + cs := by
  rcases chunkEnd_cases cs t start with h | ⟨i, _, _, h2, h3⟩ <;> omega

/-- Under the constraints `0 < cs`, `ov < cs` and `10*ov ≤ 7*cs`, each
iteration moves the cursor strictly forward (this is the key fact the
spec flags as an unguarded robustness requirement). -/
lemma chunkStep_start_lt (cs ov : Nat) (t : List Char) (start : Nat)
    (hov : ov < cs) (h7 : 10 * ov ≤ 7 * cs) :
    start < (chunkStep cs ov t start).2 := by
  unfold chunkStep
  simp only
  rcases chunkEnd_cases cs t start with h | ⟨i, h1, _, _, h4⟩ <;> omega

/-- Soundness of the chunking loop: with a strictly advancing cursor and
enough fuel, the loop returns, and every chunk it appends is stripped,
non-empty and of length at most `cs`. -/
lemma chunkLoop_sound (cs ov : Nat) (t : List Char)
    (hov : ov < cs) (h7 : 10 * ov ≤ 7 * cs) :
    ∀ fuel start acc, t.length ≤ start + fuel →
      ∃ r, chunkLoop cs ov t (fuel + 1) start acc = some r ∧
        ∀ c ∈ r, c ∈ acc ∨ (pyStrip c = c ∧ c ≠ [] ∧ c.length ≤ cs) := by
  intro fuel
  induction fuel with
  | zero =>
    intro start acc hle
    refine ⟨acc, ?_, fun c hc => Or.inl hc⟩
    rw [chunkLoop, if_neg (by omega)]
  | succ fuel ih =>
    intro start acc hle
    by_cases hstart : start < t.length
    · rw [chunkLoop, if_pos hstart]
      have hlt := chunkStep_start_lt cs ov t start hov h7
      obtain ⟨r, hr, hprop⟩ := ih (chunkStep cs ov t start).2
        (acc ++ ((chunkStep cs ov t start).1).toList) (by omega)
      refine ⟨r, hr, fun c hc => ?_⟩
      rcases hprop c hc with hmem | hgood
      · rw [List.mem_append] at hmem
        rcases hmem with h | h
        · exact Or.inl h
        · right
          unfold chunkStep at h
          simp only at h
          split at h
          · simp at h
          · next hne =>
            simp at h
            subst h
            refine ⟨pyStrip_idem _, hne, ?_⟩
            calc (pyStrip (pySlice t start (chunkEnd cs t start))).length
                ≤ (pySlice t start (chunkEnd cs t start)).length :=
                  pyStrip_length_le _
              _ ≤ chunkEnd cs t start - start := pySlice_length_le _ _ _
              _ ≤ cs := by have := chunkEnd_le cs t start; omega
      · exact Or.inr hgood
    · refine ⟨acc, ?_, fun c hc => Or.inl hc⟩
      rw [chunkLoop, if_neg hstart]

/-- Soundness of `createChunks` under the terminating parameter regime. -/
lemma createChunks_sound (cs ov : Nat) (t : List Char)
    (hov : ov < cs) (h7 : 10 * ov ≤ 7 * cs) :
    ∃ chunks, createChunks cs ov t = some chunks ∧
      (t.length ≤ cs → chunks = [t]) ∧
      (cs < t.length →
        ∀ c ∈ chunks, pyStrip c = c ∧ c ≠ [] ∧ c.length ≤ cs) := by
  unfold createChunks
  by_cases h : t.length ≤ cs
  · exact ⟨[t], by rw [if_pos h], fun _ => rfl, fun hgt => by omega⟩
  · rw [if_neg h]
    obtain ⟨r, hr, hprop⟩ :=
      chunkLoop_sound cs ov t hov h7 t.length 0 [] (by omega)
    refine ⟨r, hr, fun hle => by omega, fun _ c hc => ?_⟩
    rcases hprop c hc with hmem | hgood
    · simp at hmem
    · exact hgood

lemma findCut_characterize (cs : Nat) (t : List Char) (start e : Nat) :
    ∀ ms : List (List Char),
      (findCut cs t start e ms = e ∧
        ∀ m ∈ ms, NoQualifyingOcc cs t start e m) ∨
      (∃ pre m post i, ms = pre ++ m :: post ∧
        QualifyingOcc cs t start e m i ∧ RightmostOcc t start e m i ∧
        (∀ m' ∈ pre, NoQualifyingOcc cs t start e m') ∧
        findCut cs t start e ms = i + 1) := by
  intro ms
  induction ms with
  | nil => exact Or.inl ⟨rfl, by simp⟩
  | cons m ms ih =>
    cases hr : rfind t m start e with
    | none =>
      have hnq : NoQualifyingOcc cs t start e m := fun j hj1 hj2 hj3 =>
        absurd (rfind_none hr j hj1 hj2 hj3) not_false
      rcases ih with ⟨he, hall⟩ | ⟨pre, m', post, i, hsplit, hq, hrm, hpre, hfc⟩
      · refine Or.inl ⟨by simp only [findCut, hr]; exact he, ?_⟩
        intro m' hm'
        rcases List.mem_cons.mp hm' with hEq | hmem
        · subst hEq; exact hnq
        · exact hall m' hmem
      · refine Or.inr ⟨m :: pre, m', post, i, by rw [hsplit]; rfl, hq, hrm, ?_, ?_⟩
        · intro m'' hm''
          rcases List.mem_cons.mp hm'' with hEq | hmem
          · subst hEq; exact hnq
          · exact hpre m'' hmem
        · simp only [findCut, hr]; exact hfc
    | some i =>
      obtain ⟨h1, h2, h3⟩ := rfind_some hr
      by_cases hqual : 10 * start + 7 * cs < 10 * i
      · refine Or.inr ⟨[], m, ms, i, rfl, ⟨h1, h2, h3, hqual⟩,
          fun j hj1 hj2 hj3 => rfind_max hr j hj1 hj2 hj3, by simp, ?_⟩
        simp only [findCut, hr, if_pos hqual]
      · have hnq : NoQualifyingOcc cs t start e m := by
          intro j hj1 hj2 hj3
          have hji := rfind_max hr j hj1 hj2 hj3
          omega
        rcases ih with ⟨he, hall⟩ | ⟨pre, m', post, j, hsplit, hq, hrm, hpre, hfc⟩
        · refine Or.inl ⟨by simp only [findCut, hr, if_neg hqual]; exact he, ?_⟩
          intro m' hm'
          rcases List.mem_cons.mp hm' with hEq | hmem
          · subst hEq; exact hnq
          · exact hall m' hmem
        · refine Or.inr ⟨m :: pre, m', post, j, by rw [hsplit]; rfl, hq, hrm, ?_, ?_⟩
          · intro m'' hm''
            rcases List.mem_cons.mp hm'' with hEq | hmem
            · subst hEq; exact hnq
            · exact hpre m'' hmem
          · simp only [findCut, hr, if_neg hqual]; exact hfc

/-! Claim theorems about the chunker. -/

/-- C1: on the empty text, `_create_chunks` takes the
`len(text) <= chunk_size` branch and returns `[""]` — a one-element
list holding the empty chunk — not the empty sequence the claim (and the
repository's own unit test `chunk_text("") == []`) requires. -/
theorem createChunks_empty_input (cs ov : Nat) :
    createChunks cs ov [] = some [[]] := by
  simp [createChunks]

/-- C2 counterexample: with `chunk_size = 10` and `overlap = 9`
(parameters satisfying `chunk_size > 0` and `0 ≤ overlap < chunk_size`)
on the text `"aaaaaaaa. ab"`, the iteration at cursor 0 cuts at the
sentence marker (`end = 9`) and moves the cursor to `9 - 9 = 0`: the
cursor does not strictly increase, the loop state repeats forever, and
the fuel-indexed model returns `none`. -/
theorem chunk_cursor_stalls :
    (0 < 10 ∧ 9 < 10) ∧
    (chunkStep 10 9 stallText 0).2 = 0 ∧
    createChunks 10 9 stallText = none := by decide

/-- C2 (amended): under the additional guard
`10 * overlap ≤ 7 * chunk_size` (overlap at most 70% of the chunk size),
the cursor strictly increases at every iteration and the chunker
terminates, returning a finite sequence. -/
theorem chunker_cursor_advances_and_terminates (cs ov : Nat) (t : List Char)
    (hcs : 0 < cs) (hov : ov < cs) (h7 : 10 * ov ≤ 7 * cs) :
    (∀ start, start < (chunkStep cs ov t start).2) ∧
    (createChunks cs ov t).isSome = true := by
  refine ⟨fun start => chunkStep_start_lt cs ov t start hov h7, ?_⟩
  obtain ⟨chunks, hc, _⟩ := createChunks_sound cs ov t hov h7
  rw [hc]
  rfl

theorem chunker_cursor_advances_and_terminates_witness :
    (0 < 1000 ∧ 200 < 1000 ∧ 10 * 200 ≤ 7 * 1000) ∧
    ((∀ start, start < (chunkStep 1000 200 (List.replicate 5 'x') start).2) ∧
      (createChunks 1000 200 (List.replicate 5 'x')).isSome = true) :=
  ⟨⟨by decide, by decide, by decide⟩,
    chunker_cursor_advances_and_terminates 1000 200 (List.replicate 5 'x')
      (by decide) (by decide) (by decide)⟩

/-- C3 counterexample: in `boundaryText`, within the window `[0, 100)`
of the iteration at cursor 0 (whose tentative end 100 is strictly inside
the 102-character text), the marker `"! "` occurs at 90 and qualifies
(90 > 0 + 70), yet the code cuts at the `". "` occurrence 80 (producing
`end = 81`) because `". "` comes first in the marker list — not at the
rightmost qualifying occurrence over all markers (which gives 91). -/
theorem chunk_cut_not_rightmost_marker :
    0 + 100 < boundaryText.length ∧
    chunkEnd 100 boundaryText 0 = 81 ∧
    findCutClaim 100 boundaryText 0 100 = 91 ∧
    rfind boundaryText ['!', ' '] 0 100 = some 90 ∧
    10 * 0 + 7 * 100 < 10 * 90 := by decide

/-- C3 (amended): when the tentative end `start + cs` is strictly inside
the text, either no marker has a qualifying occurrence (beyond
`start + cs * 0.7`) in the window and the cut is the raw boundary, or the
cut is `i + 1` where `i` is the rightmost occurrence of the FIRST marker
in the fixed order `". ", "! ", "? ", "\n\n"` that has a qualifying
occurrence; all markers earlier in the order have none. -/
theorem chunk_cut_first_marker_in_order (cs : Nat) (t : List Char)
    (start : Nat) (h : start + cs < t.length) :
    (chunkEnd cs t start = start + cs ∧
      ∀ m ∈ sentenceEndings, NoQualifyingOcc cs t start (start + cs) m) ∨
    (∃ pre m post i, sentenceEndings = pre ++ m :: post ∧
      QualifyingOcc cs t start (start + cs) m i ∧
      RightmostOcc t start (start + cs) m i ∧
      (∀ m' ∈ pre, NoQualifyingOcc cs t start (start + cs) m') ∧
      chunkEnd cs t start = i + 1) := by
  have hch := findCut_characterize cs t start (start + cs) sentenceEndings
  unfold chunkEnd
  rw [if_pos h]
  exact hch

theorem chunk_cut_first_marker_in_order_witness :
    0 + 100 < boundaryText.length ∧
    ((chunkEnd 100 boundaryText 0 = 0 + 100 ∧
        ∀ m ∈ sentenceEndings, NoQualifyingOcc 100 boundaryText 0 (0 + 100) m) ∨
      (∃ pre m post i, sentenceEndings = pre ++ m :: post ∧
        QualifyingOcc 100 boundaryText 0 (0 + 100) m i ∧
        RightmostOcc boundaryText 0 (0 + 100) m i ∧
        (∀ m' ∈ pre, NoQualifyingOcc 100 boundaryText 0 (0 + 100) m') ∧
        chunkEnd 100 boundaryText 0 = i + 1)) :=
  ⟨by decide, chunk_cut_first_marker_in_order 100 boundaryText 0 (by decide)⟩

/-- C4 counterexample: on the whitespace-only text `" "` with
`chunk_size = 100`, `overlap = 20`, the chunker returns the single
chunk `" "`, which is empty after trimming. -/
theorem whitespace_chunk_empty_after_trim :
    (0 < 100 ∧ 20 < 100) ∧
    createChunks 100 20 [' '] = some [[' ']] ∧ pyStrip [' '] = [] := by decide

/-- C4 (amended): under `0 < cs`, `ov < cs` and `10*ov ≤ 7*cs` (the
regime in which the loop terminates), every chunk has length at most
`cs`; every chunk produced by the splitting loop (`len(text) > cs`) is
already stripped and non-empty after trimming; when `len(text) ≤ cs`
the single returned chunk is the untrimmed text itself, which may trim
to empty. -/
theorem chunk_trim_and_length_invariants (cs ov : Nat) (t : List Char)
    (hcs : 0 < cs) (hov : ov < cs) (h7 : 10 * ov ≤ 7 * cs) :
    ∃ chunks, createChunks cs ov t = some chunks ∧
      (∀ c ∈ chunks, c.length ≤ cs) ∧
      (t.length ≤ cs → chunks = [t]) ∧
      (cs < t.length → ∀ c ∈ chunks, pyStrip c = c ∧ c ≠ []) := by
  obtain ⟨chunks, h1, h2, h3⟩ := createChunks_sound cs ov t hov h7
  refine ⟨chunks, h1, ?_, h2, fun hgt c hc =>
    ⟨(h3 hgt c hc).1, (h3 hgt c hc).2.1⟩⟩
  intro c hc
  by_cases hle : t.length ≤ cs
  · rw [h2 hle] at hc
    simp at hc
    subst hc
    exact hle
  · exact (h3 (by omega) c hc).2.2

lemma fallbackTextExtraction_ok (cs ov : Nat) (env : HtmlEnv)
    (source raw : List Char) (h : env.fallbackRaw = .ok raw) :
    fallbackTextExtraction cs ov env source =
      (if cleanText raw = [] then some [] else
        match createChunks cs ov (cleanText raw) with
        | some tcs => some (wrapChunks source "html_fallback" "fallback" tcs)
        | none => none) := by
  unfold fallbackTextExtraction
  rw [h]

/-- C7: when neither strategy extracts a text segment and even the
fallback parse's raw text cleans to nothing (as for HTML holding only a
script tag), `_process_html_content` diverts to
`_fallback_text_extraction`, which returns the empty sequence — no
error. -/
theorem html_no_text_gives_empty (cs ov : Nat) (env : HtmlEnv)
    (source : List Char) (hseg : textSegments env = [])
    (hfb : ∀ raw, env.fallbackRaw = .ok raw → cleanText raw = []) :
    processHtmlContent cs ov env source = some [] := by
  unfold processHtmlContent
  rw [if_neg (by simp [hseg])]
  cases h : env.fallbackRaw with
  | error e =>
    unfold fallbackTextExtraction
    rw [h]
  | ok raw =>
    rw [fallbackTextExtraction_ok cs ov env source raw h,
      if_pos (hfb raw h)]

theorem html_no_text_gives_empty_witness :
    (textSegments scriptOnlyEnv = [] ∧
      ∀ raw, scriptOnlyEnv.fallbackRaw = .ok raw → cleanText raw = []) ∧
    processHtmlContent 1000 200 scriptOnlyEnv [] = some [] :=
  ⟨⟨by decide, fun raw h => by injection h with h2; rw [← h2]; rfl⟩,
    html_no_text_gives_empty 1000 200 scriptOnlyEnv [] (by decide)
      (fun raw h => by injection h with h2; rw [← h2]; rfl)⟩

/-- C9: for every oracle outcome of the extraction strategies (any
combination of results and exceptions) the HTML content-processing
function returns a chunk list and never propagates an exception; a run
with no extracted segments diverts to the fallback extractor, and a
fallback whose own parse raises returns the empty list. The chunker
parameters must sit in the terminating regime (satisfied by the
constructor defaults 1000/200), since a diverging chunk loop would make
the function not return at all. -/
theorem html_processing_total (cs ov : Nat) (env : HtmlEnv)
    (source : List Char) (hcs : 0 < cs) (hov : ov < cs)
    (h7 : 10 * ov ≤ 7 * cs) :
    (∃ l, processHtmlContent cs ov env source = some l) ∧
    (textSegments env = [] →
      processHtmlContent cs ov env source =
        fallbackTextExtraction cs ov env source) ∧
    (∀ e, env.fallbackRaw = .error e →
      fallbackTextExtraction cs ov env source = some []) := by
  refine ⟨?_, ?_, ?_⟩
  · unfold processHtmlContent
    split
    · obtain ⟨tcs, htcs, _⟩ :=
        createChunks_sound cs ov (joinSp (textSegments env)) hov h7
      rw [htcs]
      exact ⟨_, rfl⟩
    · cases h : env.fallbackRaw with
      | error e =>
        refine ⟨[], ?_⟩
        unfold fallbackTextExtraction
        rw [h]
      | ok raw =>
        rw [fallbackTextExtraction_ok cs ov env source raw h]
        by_cases hc : cleanText raw = []
        · rw [if_pos hc]
          exact ⟨[], rfl⟩
        · rw [if_neg hc]
          obtain ⟨tcs, htcs, _⟩ :=
            createChunks_sound cs ov (cleanText raw) hov h7
          rw [htcs]
          exact ⟨_, rfl⟩
  · intro hseg
    unfold processHtmlContent
    rw [if_neg (by simp [hseg])]
  · intro e he
    unfold fallbackTextExtraction
    rw [he]

theorem html_processing_total_witness :
    (0 < 1000 ∧ 200 < 1000 ∧ 10 * 200 ≤ 7 * 1000) ∧
    ((∃ l, processHtmlContent 1000 200 allFailEnv [] = some l) ∧
      (textSegments allFailEnv = [] →
        processHtmlContent 1000 200 allFailEnv [] =
          fallbackTextExtraction 1000 200 allFailEnv []) ∧
      (∀ e, allFailEnv.fallbackRaw = .error e →
        fallbackTextExtraction 1000 200 allFailEnv [] = some [])) :=
  ⟨⟨by decide, by decide, by decide⟩,
    html_processing_total 1000 200 allFailEnv [] (by decide) (by decide)
      (by decide)⟩

theorem chunk_trim_and_length_invariants_witness :
    (0 < 100 ∧ 20 < 100 ∧ 10 * 20 ≤ 7 * 100) ∧
    (∃ chunks, createChunks 100 20 (List.replicate 3 'a') = some chunks ∧
      (∀ c ∈ chunks, c.length ≤ 100) ∧
      ((List.replicate 3 'a' : List Char).length ≤ 100 →
        chunks = [List.replicate 3 'a']) ∧
      (100 < (List.replicate 3 'a' : List Char).length →
        ∀ c ∈ chunks, pyStrip c = c ∧ c ≠ [])) :=
  ⟨⟨by decide, by decide, by decide⟩,
    chunk_trim_and_length_invariants 100 20 (List.replicate 3 'a')
      (by decide) (by decide) (by decide)⟩

end HtmlProc

/-! Claim theorems about the query pipeline and the HTTP query route. -/

/-- C5: for every non-empty question with the collection initialized,
if the retrieval call returns without raising and delivers zero
documents, `RAGService.query` returns exactly the literal fallback
string — for every state and outcome of the LLM, which is never
invoked — and raises no error. -/
theorem rag_query_zero_docs_fallback (question : String)
    (res : Option RagService.QueryResults) (llmOk : Bool)
    (llm : Except Unit String) (hq : question ≠ "")
    (hdocs : RagService.retrievedDocs res = []) :
    RagService.query question true (.ok res) llmOk llm =
      (some RagService.fallbackAnswer, false) := by
  cases res with
  | none => simp [RagService.query, hq]
  | some r =>
    match hd : r.documents with
    | none => simp [RagService.query, hq, hd]
    | some [] => simp [RagService.query, hq, hd]
    | some (docs :: rest) =>
      have hnil : docs = [] := by
        simpa [RagService.retrievedDocs, hd] using hdocs
      simp [RagService.query, hq, hd, hnil]

theorem rag_query_zero_docs_fallback_witness :
    ("Who is Spock?" ≠ "" ∧
      RagService.retrievedDocs (some ⟨some [[]]⟩) = []) ∧
    RagService.query "Who is Spock?" true (.ok (some ⟨some [[]]⟩)) true
        (.ok "ignored") =
      (some RagService.fallbackAnswer, false) :=
  ⟨⟨by decide, rfl⟩,
    rag_query_zero_docs_fallback "Who is Spock?" (some ⟨some [[]]⟩) true
      (.ok "ignored") (by decide) rfl⟩

/-- C10: at `/api/query`, when the request body has a query and the
service returns the empty string, the route responds 400 with
"No response generated" — exactly as when the service returns `None`;
an empty-string answer is never a 200. -/
theorem api_query_empty_answer_rejected (d : Api.QueryRequest) (q : String)
    (svc : String → Nat → Except String (Option String))
    (resp : Option String) (hq : d.query = some q)
    (hresp : svc q d.num_results = .ok resp)
    (hempty : resp = some "" ∨ resp = none) :
    Api.queryRoute (some d) svc =
      (400, Api.ApiBody.error "No response generated") := by
  rcases hempty with h | h <;> subst h <;>
    simp [Api.queryRoute, hq, hresp]

theorem api_query_empty_answer_rejected_witness :
    ((⟨some "q", 5⟩ : Api.QueryRequest).query = some "q" ∧
      Api.svcEmpty "q" 5 = .ok (some "") ∧
      ((some "" : Option String) = some "" ∨ (some "" : Option String) = none)) ∧
    Api.queryRoute (some ⟨some "q", 5⟩) Api.svcEmpty =
      (400, Api.ApiBody.error "No response generated") :=
  ⟨⟨rfl, rfl, Or.inl rfl⟩,
    api_query_empty_answer_rejected ⟨some "q", 5⟩ "q" Api.svcEmpty
      (some "") rfl rfl (Or.inl rfl)⟩

/-! Claim theorems about the ingestion pipeline's run statistics. -/

namespace EnhancedProc

lemma outcomesFrom_succ (o : Nat → ChunkOutcome) (i n : Nat) :
    outcomesFrom o i (n + 1) = o i :: outcomesFrom o (i + 1) n := by
  unfold outcomesFrom
  rw [List.range_succ_eq_map, List.map_cons, List.map_map]
  refine congrArg₂ _ (congrArg o (by omega)) ?_
  apply List.map_congr_left
  intro k _
  exact congrArg o (by omega)

/-- The per-chunk loop never raises, and its effect on the counters is
the sum of the per-chunk contributions: each failing chunk adds its
error weight and the loop continues, each successful chunk is counted. -/
lemma processChunks_spec (o : Nat → ChunkOutcome) :
    ∀ (l : List (List Char)) (i cnt : Nat) (s : Stats),
      (processChunks o l i cnt s).1 =
        cnt + ((outcomesFrom o i l.length).map outcomeOk).sum ∧
      (processChunks o l i cnt s).2.errors =
        s.errors + ((outcomesFrom o i l.length).map outcomeErrors).sum ∧
      (processChunks o l i cnt s).2.total_chunks_processed =
        s.total_chunks_processed +
          ((outcomesFrom o i l.length).map outcomeOk).sum := by
  intro l
  induction l with
  | nil =>
    intro i cnt s
    simp [processChunks, outcomesFrom]
  | cons c rest ih =>
    intro i cnt s
    rw [List.length_cons, outcomesFrom_succ]
    cases h : o i with
    | ok =>
      obtain ⟨h1, h2, h3⟩ := ih (i + 1) (cnt + 1)
        { s with total_text_length := s.total_text_length + c.length,
                 total_files_processed := s.total_files_processed + 1,
                 total_chunks_processed := s.total_chunks_processed + 1 }
      refine ⟨?_, ?_, ?_⟩ <;>
        simp only [processChunks, h, h1, h2, h3, List.map_cons,
          List.sum_cons, outcomeOk, outcomeErrors] <;> omega
    | addFail =>
      obtain ⟨h1, h2, h3⟩ := ih (i + 1) cnt
        { s with total_text_length := s.total_text_length + c.length,
                 errors := s.errors + 1 }
      refine ⟨?_, ?_, ?_⟩ <;>
        simp only [processChunks, h, h1, h2, h3, List.map_cons,
          List.sum_cons, outcomeOk, outcomeErrors] <;> omega
    | embedFail =>
      obtain ⟨h1, h2, h3⟩ := ih (i + 1) cnt { s with errors := s.errors + 2 }
      refine ⟨?_, ?_, ?_⟩ <;>
        simp only [processChunks, h, h1, h2, h3, List.map_cons,
          List.sum_cons, outcomeOk, outcomeErrors] <;> omega
    | embedNotList =>
      obtain ⟨h1, h2, h3⟩ := ih (i + 1) cnt
        { s with total_text_length := s.total_text_length + c.length,
                 errors := s.errors + 2 }
      refine ⟨?_, ?_, ?_⟩ <;>
        simp only [processChunks, h, h1, h2, h3, List.map_cons,
          List.sum_cons, outcomeOk, outcomeErrors] <;> omega

lemma foldTextFile_errors (s : Stats) (f : TextFileInput) :
    (foldTextFile s f).errors = s.errors + textFileErrors f := by
  obtain ⟨_, h2, _⟩ := processChunks_spec f.oracle (validChunks f.content) 0 0 s
  by_cases hr : f.readOk
  · simp only [foldTextFile, processTextFile, if_pos hr, h2,
      textFileErrors]
  · simp only [foldTextFile, processTextFile, if_neg hr,
      textFileErrors]

lemma foldTextFile_chunks (s : Stats) (f : TextFileInput) :
    (foldTextFile s f).total_chunks_processed =
      s.total_chunks_processed + textFileOkChunks f := by
  obtain ⟨_, _, h3⟩ := processChunks_spec f.oracle (validChunks f.content) 0 0 s
  by_cases hr : f.readOk
  · simp only [foldTextFile, processTextFile, if_pos hr, h3,
      textFileOkChunks]
  · simp only [foldTextFile, processTextFile, if_neg hr,
      textFileOkChunks]
    omega

lemma foldHtmlFile_errors (s : Stats) (f : HtmlFileInput) :
    (foldHtmlFile s f).errors = s.errors + htmlFileErrors f := by
  cases hx : f.extracted with
  | some chunks =>
    obtain ⟨_, h2, _⟩ := processChunks_spec f.oracle chunks 0 0 s
    simp only [foldHtmlFile, processHtmlFile, hx, h2, htmlFileErrors]
  | none =>
    simp only [foldHtmlFile, processHtmlFile, hx, htmlFileErrors]

lemma foldHtmlFile_chunks (s : Stats) (f : HtmlFileInput) :
    (foldHtmlFile s f).total_chunks_processed =
      s.total_chunks_processed + htmlFileOkChunks f := by
  cases hx : f.extracted with
  | some chunks =>
    obtain ⟨_, _, h3⟩ := processChunks_spec f.oracle chunks 0 0 s
    simp only [foldHtmlFile, processHtmlFile, hx, h3, htmlFileOkChunks]
  | none =>
    simp only [foldHtmlFile, processHtmlFile, hx, htmlFileOkChunks]
    omega

/-- Folding the text files: errors and processed chunks accumulate per
file; a failing file contributes only its own errors and the fold
continues with the next file. -/
lemma foldTextFile_spec :
    ∀ (tfs : List TextFileInput) (s : Stats),
      (tfs.foldl foldTextFile s).errors =
        s.errors + (tfs.map textFileErrors).sum ∧
      (tfs.foldl foldTextFile s).total_chunks_processed =
        s.total_chunks_processed + (tfs.map textFileOkChunks).sum := by
  intro tfs
  induction tfs with
  | nil => intro s; simp
  | cons f rest ih =>
    intro s
    rw [List.foldl_cons, List.map_cons, List.map_cons, List.sum_cons,
      List.sum_cons]
    obtain ⟨i1, i2⟩ := ih (foldTextFile s f)
    constructor
    · rw [i1, foldTextFile_errors]
      omega
    · rw [i2, foldTextFile_chunks]
      omega

/-- Folding the HTML files. -/
lemma foldHtmlFile_spec :
    ∀ (hfs : List HtmlFileInput) (s : Stats),
      (hfs.foldl foldHtmlFile s).errors =
        s.errors + (hfs.map htmlFileErrors).sum ∧
      (hfs.foldl foldHtmlFile s).total_chunks_processed =
        s.total_chunks_processed + (hfs.map htmlFileOkChunks).sum := by
  intro hfs
  induction hfs with
  | nil => intro s; simp
  | cons f rest ih =>
    intro s
    rw [List.foldl_cons, List.map_cons, List.map_cons, List.sum_cons,
      List.sum_cons]
    obtain ⟨i1, i2⟩ := ih (foldHtmlFile s f)
    constructor
    · rw [i1, foldHtmlFile_errors]
      omega
    · rw [i2, foldHtmlFile_chunks]
      omega

end EnhancedProc

/-- C6: for every folder whose path exists — any mix of readable and
unreadable text files, extractable and raising HTML files, and any
embed/persist outcome for each chunk — `process_folder` completes and
returns the statistics; its error counter is exactly the sum of the
independent per-unit contributions (each failing chunk adds its weight
and the loop continues with the next chunk; each failing file adds its
own and the run continues with the next file), and the chunks-processed
counter counts every successfully persisted chunk of every file,
including files after a failing one. -/
theorem process_folder_partial_failure_policy
    (tfs : List EnhancedProc.TextFileInput)
    (hfs : List EnhancedProc.HtmlFileInput) :
    ∃ st, EnhancedProc.processFolder true tfs hfs = some st ∧
      st.errors = (tfs.map EnhancedProc.textFileErrors).sum +
        (hfs.map EnhancedProc.htmlFileErrors).sum ∧
      st.total_chunks_processed =
        (tfs.map EnhancedProc.textFileOkChunks).sum +
          (hfs.map EnhancedProc.htmlFileOkChunks).sum := by
  refine ⟨(hfs.foldl EnhancedProc.foldHtmlFile
    (tfs.foldl EnhancedProc.foldTextFile EnhancedProc.initStats)), rfl, ?_, ?_⟩
  · obtain ⟨t1, _⟩ :=
      EnhancedProc.foldTextFile_spec tfs EnhancedProc.initStats
    obtain ⟨h1, _⟩ := EnhancedProc.foldHtmlFile_spec hfs
      (tfs.foldl EnhancedProc.foldTextFile EnhancedProc.initStats)
    rw [h1, t1]
    simp [EnhancedProc.initStats]
  · obtain ⟨_, t2⟩ :=
      EnhancedProc.foldTextFile_spec tfs EnhancedProc.initStats
    obtain ⟨_, h2⟩ := EnhancedProc.foldHtmlFile_spec hfs
      (tfs.foldl EnhancedProc.foldTextFile EnhancedProc.initStats)
    rw [h2, t2]
    simp [EnhancedProc.initStats]

/-- C8: the files-processed counter does NOT end at n: `add_to_chroma`
increments `total_files_processed` once per successfully persisted
chunk (enhanced_processor.py:162), on top of `process_folder`'s
per-file increment. A folder with one text file of one chunk, all
calls succeeding, ends with `total_files_processed = 2` while n = 1;
the chunk, text-length and error counters are the separate fields
shown. -/
theorem files_counter_counts_chunk_persists :
    EnhancedProc.processFolder true [EnhancedProc.fileC8] [] =
      some ⟨2, 0, 1, 5, 0, 1, 0, 0⟩ ∧
    [EnhancedProc.fileC8].length = 1 := by
  constructor
  · rfl
  · rfl
